import Mathlib

/-!
# Verification of the IndicTrans translation orchestration pipeline (`api.py`)

Shallow embedding of the request pipeline of `api.py`:
language-code resolution, input filtering, chunked batching with per-chunk
failure isolation, length repair, order-preserving scatter-back reassembly,
and the `/translate` endpoint's final length fixup and error handling.

The external translation engine (`ip.preprocess_batch` / `model.generate` /
`ip.postprocess_batch`) is modelled as an opaque function from a source tag,
a target tag and a batch to an outcome: either a result list (possibly of the
wrong length) or a failure (a raised exception or a timeout).  Unexpected
exceptions in the surrounding Python code are modelled by an explicit
injection point (`ExnAt`) that selects which `try`/`except` scope, if any, an
unexpected exception is raised in.
-/

namespace IndicTransNSE

/-- Outcome of one invocation of the external translation engine on a batch:
an ordered list of results (possibly of the wrong length), or a failure
(a raised exception or a timeout, both of which `_translate_batch_on_gpu`
catches the same way). -/
inductive EngineOutcome where
  | ok (results : List String)
  | failure
deriving DecidableEq

/-- The external translation engine: source tag, target tag, batch ↦ outcome. -/
def Engine : Type := String → String → List String → EngineOutcome

/-- The chunk-size constant `MODEL_BATCH_SIZE = 24` (api.py line 46). -/
def MODEL_BATCH_SIZE : Nat := 24

/-- The set of canonical IndicTrans2 tags (api.py lines 292-298). -/
def valid_target_langs : List String :=
  ["hin_Deva", "mar_Deva", "tam_Taml", "tel_Telu", "guj_Gujr", "kan_Knda",
   "ben_Beng", "asm_Beng", "brx_Deva", "doi_Deva", "eng_Latn", "gom_Deva",
   "kas_Arab", "kas_Deva", "mai_Deva", "mal_Mlym", "mni_Beng", "mni_Mtei",
   "nep_Deva", "npi_Deva", "ory_Orya", "pan_Guru", "san_Deva", "sat_Olck",
   "snd_Arab", "snd_Deva", "urd_Arab"]

/-- The short-code → canonical-tag fallback table (api.py lines 305-316). -/
def tgt_lang_map : List (String × String) :=
  [("hi", "hin_Deva"), ("mr", "mar_Deva"), ("ta", "tam_Taml"), ("te", "tel_Telu"),
   ("gu", "guj_Gujr"), ("kn", "kan_Knda"), ("ben", "ben_Beng"), ("bn", "ben_Beng"),
   ("asm", "asm_Beng"), ("brx", "brx_Deva"), ("doi", "doi_Deva"), ("eng", "eng_Latn"),
   ("gom", "gom_Deva"), ("kas", "kas_Arab"), ("kas_Deva", "kas_Deva"), ("mai", "mai_Deva"),
   ("mal", "mal_Mlym"), ("mni", "mni_Beng"), ("mni_Mtei", "mni_Mtei"), ("nep", "nep_Deva"),
   ("npi", "npi_Deva"), ("ory", "ory_Orya"), ("pan", "pan_Guru"), ("san", "san_Deva"),
   ("sat", "sat_Olck"), ("snd", "snd_Arab"), ("snd_Deva", "snd_Deva"), ("tel", "tel_Telu"),
   ("urd", "urd_Arab"), ("as", "asm_Beng"), ("en", "eng_Latn"), ("ks", "kas_Arab"),
   ("ml", "mal_Mlym"), ("ne", "nep_Deva"), ("or", "ory_Orya"), ("pa", "pan_Guru"),
   ("sa", "san_Deva"), ("sd", "snd_Arab"), ("ur", "urd_Arab")]

/-- Language resolution (api.py lines 300-321): a valid canonical tag is used
directly, otherwise the short-code table is consulted; `none` means unknown. -/
def resolveLang (target_language : String) : Option String :=
  if valid_target_langs.contains target_language then some target_language
  else tgt_lang_map.lookup target_language

/-- Python's `str.strip()`: remove leading and trailing whitespace.
Defined structurally on the character list so that it evaluates in the
kernel (`String.trim` is extensionally the same but defined by well-founded
recursion on byte positions). -/
def strip (s : String) : String :=
  ⟨((s.data.dropWhile Char.isWhitespace).reverse.dropWhile
      Char.isWhitespace).reverse⟩

/-- The filtering predicate of the main pipeline (api.py lines 329-333): strip,
then keep iff non-empty, at least one alphabetic character, and at most 1000
characters.  `ia` stands for Python's Unicode-aware per-character
`str.isalpha`; it is kept abstract because Lean's `Char.isAlpha` is
ASCII-only (instantiate with `Char.isAlpha` on ASCII inputs). -/
def isTranslatable (ia : Char → Bool) (text : String) : Bool :=
  let t := strip text
  decide (0 < t.length) && t.data.any ia && decide (t.length ≤ 1000)

/-- The filtering loop (api.py lines 326-339), with `k` the index of the first
element: returns the stripped translatable texts together with their original
indices, in order. -/
def filterTextsAux (ia : Char → Bool) : Nat → List String → List String × List Nat
  | _, [] => ([], [])
  | k, text :: rest =>
    if isTranslatable ia text then
      (strip text :: (filterTextsAux ia (k + 1) rest).1,
        k :: (filterTextsAux ia (k + 1) rest).2)
    else filterTextsAux ia (k + 1) rest

/-- The filtering step on a whole request (`filtered_texts`, `text_indices`). -/
def filterTexts (ia : Char → Bool) (texts : List String) : List String × List Nat :=
  filterTextsAux ia 0 texts

/-- Fuel-indexed chunking loop: peel off `B` elements at a time; `fuel` bounds
the number of chunks (structural recursion so that the kernel can evaluate
it).  With `fuel = l.length` and `0 < B` the fuel never runs out. -/
def chunkListGo (B : Nat) : Nat → List String → List (List String)
  | _, [] => []
  | 0, _ :: _ => []
  | fuel + 1, x :: xs => (x :: xs).take B :: chunkListGo B fuel ((x :: xs).drop B)

/-- Consecutive chunks of at most `B` elements
(api.py line 351: `for i in range(0, len(filtered_texts), batch_size)`). -/
def chunkList (B : Nat) (l : List String) : List (List String) :=
  chunkListGo B l.length l

/-- Embedding of `_translate_batch_on_gpu` (api.py lines 144-268) at the orchestration
level: an empty batch short-circuits to `[]`; an engine failure (exception or
timeout) returns the batch itself; a successful result of the wrong length is
repaired by padding with the corresponding original inputs (lines 222-224)
and truncating the excess (line 225). -/
def translateBatchOnGpu (e : Engine) (src_lang tgt_lang : String)
    (batch_texts : List String) : List String :=
  if batch_texts = [] then []
  else
    match e src_lang tgt_lang batch_texts with
    | EngineOutcome.ok results =>
        (results ++ batch_texts.drop results.length).take batch_texts.length
    | EngineOutcome.failure => batch_texts

/-- The scatter-back loop (api.py lines 364-366):
`for orig_idx, translation in zip(text_indices, all_translations):
final_results[orig_idx] = translation`. -/
def scatter (base : List String) : List Nat → List String → List String
  | [], _ => base
  | _ :: _, [] => base
  | idx :: idxs, t :: ts => scatter (base.set idx t) idxs ts

/-- Embedding of `translate_texts_with_model` (api.py lines 284-372).  `mexn = some m`
models an unexpected exception raised inside the function's `try` block
(caught at lines 370-372, which return the original texts). -/
def translate_texts_with_model (ia : Char → Bool) (e : Engine)
    (mexn : Option String) (texts_to_translate : List String)
    (target_language : String) : List String :=
  match mexn with
  | some _ => texts_to_translate
  | none =>
    match resolveLang target_language with
    | none => texts_to_translate
    | some tgt_lang =>
      let src_lang := "eng_Latn"
      let fi := filterTexts ia texts_to_translate
      if fi.1 = [] then texts_to_translate
      else
        let all_translations :=
          ((chunkList MODEL_BATCH_SIZE fi.1).map
            (translateBatchOnGpu e src_lang tgt_lang)).flatten
        scatter texts_to_translate fi.2 all_translations

/-- The request body (api.py lines 62-66). -/
structure TranslationRequest where
  texts : List String
  source_language : String := "en"
  target_language : String
  request_id : Option String := none
deriving DecidableEq

/-- The response as actually returned by the endpoint (api.py lines 422, 430):
a dict with `translations`, `processing_time` and an optional `error`.
`processing_time` is wall-clock time, not modelled. -/
structure TranslationResponse where
  translations : List String
  error : Option String
deriving DecidableEq

/-- Where, if anywhere, an unexpected exception is raised during a request:
nowhere; inside `translate_texts_with_model`'s `try` block (e.g. in filtering
or language resolution); or in the endpoint body outside that call. -/
inductive ExnAt where
  | noExn
  | inModel (msg : String)
  | inEndpoint (msg : String)
deriving DecidableEq

/-- The endpoint's length fixup (api.py lines 402-408): pad a short result
with the missing original texts, truncate a long one. -/
def fixLength (texts results : List String) : List String :=
  if results.length = texts.length then results
  else if results.length < texts.length then results ++ texts.drop results.length
  else results.take texts.length

/-- The `/translate` endpoint (api.py lines 374-430): run the model pipeline,
fix up the result length, and return it with no `error`; an unexpected
exception in the endpoint body itself is caught at lines 426-430, returning
the original texts together with an `error` field. -/
def translate_texts (ia : Char → Bool) (e : Engine) (exn : ExnAt)
    (req : TranslationRequest) : TranslationResponse :=
  match exn with
  | ExnAt.inEndpoint m => ⟨req.texts, some m⟩
  | ExnAt.noExn =>
      ⟨fixLength req.texts
        (translate_texts_with_model ia e none req.texts req.target_language),
       none⟩
  | ExnAt.inModel m =>
      ⟨fixLength req.texts
        (translate_texts_with_model ia e (some m) req.texts req.target_language),
       none⟩

/-- An engine whose every invocation fails (raises or times out). -/
def engFail : Engine := fun _ _ _ => EngineOutcome.failure

/-- An engine that returns every batch unchanged (identity translation). -/
def engId : Engine := fun _ _ b => EngineOutcome.ok b

/-- An engine that appends a marker to every item (a fake translation). -/
def engExcl : Engine := fun _ _ b => EngineOutcome.ok (b.map (fun s => s.push '!'))

/-- An engine that always returns the single-element result `["X"]`,
regardless of the batch length. -/
def engShort : Engine := fun _ _ _ => EngineOutcome.ok ["X"]

/-- An engine that fails exactly on the batch `["a", "b"]` and otherwise
appends a marker to every item. -/
def engW2 : Engine := fun _ _ b =>
  if b = ["a", "b"] then EngineOutcome.failure
  else EngineOutcome.ok (b.map (fun s => s.push '!'))

/-- An engine that fails for the source tag `"zzz"` and otherwise returns the
batch unchanged; it agrees with `engId` at source tag `"eng_Latn"`. -/
def engAlt : Engine := fun src _ b =>
  if src = "zzz" then EngineOutcome.failure else EngineOutcome.ok b

/-- A sample request: one translatable text with surrounding whitespace, one
digits-only text, one plain translatable text. -/
def reqHello : TranslationRequest :=
  ⟨["  Hello ", "123", "Welcome"], "en", "hin_Deva", none⟩

/-! ## Basic lemmas about the chunking loop -/

theorem chunkListGo_fuel {B : Nat} (hB : 0 < B) :
    ∀ (fuel fuel' : Nat) (l : List String), l.length ≤ fuel → l.length ≤ fuel' →
      chunkListGo B fuel l = chunkListGo B fuel' l := by
  intro fuel
  induction fuel with
  | zero =>
      intro fuel' l hl _
      cases l with
      | nil => cases fuel' <;> rfl
      | cons x xs => simp at hl
  | succ f ih =>
      intro fuel' l hl hl'
      cases l with
      | nil => cases fuel' <;> rfl
      | cons x xs =>
          cases fuel' with
          | zero => simp at hl'
          | succ f' =>
              simp only [chunkListGo]
              congr 1
              apply ih
              · simp only [List.length_drop, List.length_cons]
                simp only [List.length_cons] at hl
                omega
              · simp only [List.length_drop, List.length_cons]
                simp only [List.length_cons] at hl'
                omega

theorem chunkList_nil (B : Nat) : chunkList B [] = [] := rfl

/-- Unfolding lemma: for a non-empty list and positive `B`, the first chunk is
`l.take B` and the rest is the chunking of `l.drop B`. -/
theorem chunkList_cons {B : Nat} (hB : 0 < B) {l : List String} (hl : l ≠ []) :
    chunkList B l = l.take B :: chunkList B (l.drop B) := by
  cases l with
  | nil => exact absurd rfl hl
  | cons x xs =>
      show chunkListGo B (xs.length + 1) (x :: xs) = _
      simp only [chunkListGo]
      congr 1
      apply chunkListGo_fuel hB
      · simp only [List.length_drop, List.length_cons]; omega
      · exact Nat.le_refl _

/-! ## Length lemmas -/

theorem scatter_length (idxs : List Nat) (vals : List String) (base : List String) :
    (scatter base idxs vals).length = base.length := by
  induction idxs generalizing vals base with
  | nil => simp [scatter]
  | cons i is ih =>
      cases vals with
      | nil => simp [scatter]
      | cons v vs => simp [scatter, ih, List.length_set]

theorem translateBatchOnGpu_length (e : Engine) (s t : String) (b : List String) :
    (translateBatchOnGpu e s t b).length = b.length := by
  unfold translateBatchOnGpu
  by_cases hb : b = []
  · simp [hb]
  · simp only [if_neg hb]
    cases e s t b with
    | ok rs =>
        simp only [List.length_take, List.length_append, List.length_drop]
        omega
    | failure => rfl

theorem translateBatchOnGpu_failure {e : Engine} {s t : String} {b : List String}
    (h : e s t b = EngineOutcome.failure) : translateBatchOnGpu e s t b = b := by
  unfold translateBatchOnGpu
  by_cases hb : b = []
  · simp [hb]
  · simp [if_neg hb, h]

theorem translateBatchOnGpu_ok_exact {e : Engine} {s t : String} {b rs : List String}
    (h : e s t b = EngineOutcome.ok rs) (hlen : rs.length = b.length) :
    translateBatchOnGpu e s t b = rs := by
  unfold translateBatchOnGpu
  by_cases hb : b = []
  · subst hb
    simp only [List.length_nil] at hlen
    simp [List.length_eq_zero.mp hlen]
  · rw [if_neg hb, h]
    show List.take b.length (rs ++ List.drop rs.length b) = rs
    rw [hlen, List.drop_length, List.append_nil, ← hlen, List.take_length]

theorem fixLength_length (texts results : List String) :
    (fixLength texts results).length = texts.length := by
  unfold fixLength
  by_cases h1 : results.length = texts.length
  · simp [h1]
  · simp only [if_neg h1]
    by_cases h2 : results.length < texts.length
    · simp only [if_pos h2, List.length_append, List.length_drop]
      omega
    · simp only [if_neg h2, List.length_take]
      omega

theorem fixLength_of_length_eq {texts results : List String}
    (h : results.length = texts.length) : fixLength texts results = results := by
  unfold fixLength
  simp [h]

theorem fixLength_self (texts : List String) : fixLength texts texts = texts :=
  fixLength_of_length_eq rfl

/-! ## Claim C1 -/

/-- C1: for every request — any filter predicate, any engine behaviour
(success, failure, wrong-length results), any unexpected-exception location —
the response's `translations` list has exactly the same length as the
request's `texts` list; for `texts = []` this forces `translations = []`. -/
theorem response_length_invariant (ia : Char → Bool) (e : Engine) (exn : ExnAt)
    (req : TranslationRequest) :
    (translate_texts ia e exn req).translations.length = req.texts.length := by
  cases exn with
  | noExn => exact fixLength_length _ _
  | inModel m => exact fixLength_length _ _
  | inEndpoint m => rfl

/-! ## Claim C4 -/

/-- C4: the filter classifies a string as translatable iff, after stripping
leading/trailing whitespace, its length is positive, at most 1000 characters,
and it contains at least one character that the alphabet test `ia`
(Python's `str.isalpha`) accepts. -/
theorem filter_translatable_iff (ia : Char → Bool) (s : String) :
    isTranslatable ia s = true ↔
      0 < (strip s).length ∧ (strip s).length ≤ 1000 ∧
        (strip s).data.any ia = true := by
  unfold isTranslatable
  simp only [Bool.and_eq_true, decide_eq_true_eq]
  tauto

theorem filter_translatable_iff_witness :
    isTranslatable Char.isAlpha "A" = true ∧
      isTranslatable Char.isAlpha "12345" = false :=
  ⟨(filter_translatable_iff Char.isAlpha "A").mpr (by decide), by decide⟩

/-! ## Claim C3 -/

/-- C3: for a `target_language` that is neither a known canonical tag nor a
key of the short-code table, the response's translations equal the request's
texts exactly and no error field is present. -/
theorem unresolved_language_passthrough (ia : Char → Bool) (e : Engine)
    (req : TranslationRequest)
    (h1 : valid_target_langs.contains req.target_language = false)
    (h2 : tgt_lang_map.lookup req.target_language = none) :
    (translate_texts ia e ExnAt.noExn req).translations = req.texts ∧
      (translate_texts ia e ExnAt.noExn req).error = none := by
  have hc : ¬(valid_target_langs.contains req.target_language = true) := by
    rw [h1]
    exact Bool.false_ne_true
  have hres : resolveLang req.target_language = none := by
    unfold resolveLang
    rw [if_neg hc, h2]
  refine ⟨?_, rfl⟩
  show fixLength req.texts
      (translate_texts_with_model ia e none req.texts req.target_language) =
    req.texts
  unfold translate_texts_with_model
  rw [hres]
  exact fixLength_self _

theorem unresolved_language_passthrough_witness :
    (translate_texts Char.isAlpha engId ExnAt.noExn
        ⟨["Hello", "World"], "en", "xx", none⟩).translations = ["Hello", "World"] ∧
      (translate_texts Char.isAlpha engId ExnAt.noExn
        ⟨["Hello", "World"], "en", "xx", none⟩).error = none :=
  unresolved_language_passthrough Char.isAlpha engId
    ⟨["Hello", "World"], "en", "xx", none⟩ (by decide) (by decide)

/-! ## Claim C6 -/

/-- C6: the per-chunk operation always returns a list exactly as long as its
input batch; when the engine returns a result for the chunk, excess entries
are truncated and missing entries are padded with the corresponding original
input items of the chunk. -/
theorem chunk_length_repair (e : Engine) (s t : String) (batch : List String) :
    (translateBatchOnGpu e s t batch).length = batch.length ∧
      ∀ rs : List String, e s t batch = EngineOutcome.ok rs →
        (batch.length ≤ rs.length →
          translateBatchOnGpu e s t batch = rs.take batch.length) ∧
        (rs.length < batch.length →
          translateBatchOnGpu e s t batch = rs ++ batch.drop rs.length) := by
  refine ⟨translateBatchOnGpu_length e s t batch, ?_⟩
  intro rs hok
  constructor
  · intro hge
    unfold translateBatchOnGpu
    by_cases hb : batch = []
    · subst hb; simp
    · rw [if_neg hb, hok]
      show List.take batch.length (rs ++ List.drop rs.length batch) =
        List.take batch.length rs
      rw [List.drop_eq_nil_of_le hge, List.append_nil]
  · intro hlt
    unfold translateBatchOnGpu
    by_cases hb : batch = []
    · subst hb; simp at hlt
    · rw [if_neg hb, hok]
      show List.take batch.length (rs ++ List.drop rs.length batch) =
        rs ++ List.drop rs.length batch
      apply List.take_of_length_le
      simp only [List.length_append, List.length_drop]
      omega

theorem chunk_length_repair_witness :
    translateBatchOnGpu engShort "eng_Latn" "hin_Deva" ["a", "b", "c"] =
      ["X", "b", "c"] := by
  have h := ((chunk_length_repair engShort "eng_Latn" "hin_Deva"
    ["a", "b", "c"]).2 ["X"] rfl).2 (by decide)
  exact h.trans (by decide)

/-! ## Structural lemmas about chunking -/

theorem chunkList_flatten {B : Nat} (hB : 0 < B) (l : List String) :
    (chunkList B l).flatten = l := by
  by_cases hl : l = []
  · subst hl; rfl
  · rw [chunkList_cons hB hl, List.flatten_cons,
      chunkList_flatten hB (l.drop B), List.take_append_drop]
termination_by l.length
decreasing_by
  have h1 : 0 < l.length := List.length_pos.mpr hl
  simp only [List.length_drop]
  omega

theorem chunkList_length {B : Nat} (hB : 0 < B) (l : List String) :
    (chunkList B l).length = (l.length + B - 1) / B := by
  by_cases hl : l = []
  · subst hl
    simp only [chunkList_nil, List.length_nil, Nat.zero_add]
    rw [Nat.div_eq_of_lt (by omega)]
  · rw [chunkList_cons hB hl, List.length_cons,
      chunkList_length hB (l.drop B), List.length_drop]
    have hN : 0 < l.length := List.length_pos.mpr hl
    rcases le_or_lt l.length B with h | h
    · have h1 : l.length - B = 0 := Nat.sub_eq_zero_of_le h
      rw [h1]
      simp only [Nat.zero_add]
      rw [Nat.div_eq_of_lt (by omega)]
      symm
      apply Nat.div_eq_of_lt_le
      · omega
      · omega
    · have h3 : l.length + B - 1 = (l.length - 1) + B := by omega
      have h4 : l.length - B + B - 1 = l.length - 1 := by omega
      rw [h3, h4, Nat.add_div_right _ hB]
termination_by l.length
decreasing_by
  have h1 : 0 < l.length := List.length_pos.mpr hl
  simp only [List.length_drop]
  omega

theorem chunkList_chunk_le {B : Nat} (hB : 0 < B) (l : List String) :
    ∀ c ∈ chunkList B l, c.length ≤ B := by
  by_cases hl : l = []
  · subst hl
    intro c hc
    simp [chunkList_nil] at hc
  · rw [chunkList_cons hB hl]
    intro c hc
    rcases List.mem_cons.mp hc with h | h
    · subst h
      simp only [List.length_take]
      omega
    · exact chunkList_chunk_le hB (l.drop B) c h
termination_by l.length
decreasing_by
  have h1 : 0 < l.length := List.length_pos.mpr hl
  simp only [List.length_drop]
  omega

theorem chunkList_getElem? {B : Nat} (hB : 0 < B) (l : List String) (j : Nat) :
    (chunkList B l)[j]? =
      if B * j < l.length then some ((l.drop (B * j)).take B) else none := by
  induction j generalizing l with
  | zero =>
      by_cases hl : l = []
      · subst hl
        simp [chunkList_nil]
      · rw [chunkList_cons hB hl]
        have h0 : 0 < l.length := List.length_pos.mpr hl
        simp [h0]
  | succ j ih =>
      by_cases hl : l = []
      · subst hl
        simp [chunkList_nil]
      · rw [chunkList_cons hB hl]
        rw [List.getElem?_cons_succ, ih (l.drop B)]
        simp only [List.length_drop, List.drop_drop]
        have hmul : B * (j + 1) = B * j + B := Nat.mul_succ B j
        by_cases hlt : B * (j + 1) < l.length
        · rw [if_pos (by omega : B * j < l.length - B), if_pos hlt, hmul,
            Nat.add_comm B (B * j)]
        · rw [if_neg (by omega : ¬B * j < l.length - B), if_neg hlt]

theorem chunkList_take_flatten {B : Nat} (hB : 0 < B) (j : Nat) (l : List String) :
    ((chunkList B l).take j).flatten = l.take (B * j) := by
  induction j generalizing l with
  | zero => simp
  | succ j ih =>
      by_cases hl : l = []
      · subst hl
        simp [chunkList_nil]
      · rw [chunkList_cons hB hl, List.take_succ_cons, List.flatten_cons,
          ih (l.drop B)]
        have hm : B * (j + 1) = B + B * j := by ring
        rw [hm, List.take_add]

theorem flatten_length_map (f : List String → List String)
    (hf : ∀ c, (f c).length = c.length) (cs : List (List String)) :
    ((cs.map f).flatten).length = cs.flatten.length := by
  induction cs with
  | nil => rfl
  | cons c cs ih =>
      simp only [List.map_cons, List.flatten_cons, List.length_append, hf, ih]

theorem flatten_segment (os : List (List String)) (j : Nat) (c : List String)
    (h : os[j]? = some c) :
    ((os.flatten).drop ((os.take j).flatten.length)).take c.length = c := by
  have hj : j < os.length := by
    by_contra hc
    rw [List.getElem?_eq_none (by omega)] at h
    exact Option.noConfusion h
  have hget : os[j] = c := by
    have := List.getElem?_eq_getElem hj
    rw [h] at this
    exact (Option.some.injEq _ _).mp this.symm
  have hc : os.drop j = c :: os.drop (j + 1) := by
    rw [List.drop_eq_getElem_cons hj, hget]
  have hsplit : os.flatten = (os.take j).flatten ++ (os.drop j).flatten := by
    rw [← List.flatten_append, List.take_append_drop]
  rw [hsplit, List.drop_left, hc, List.flatten_cons, List.take_left]

theorem chunkList_segment {B : Nat} (hB : 0 < B) (e : Engine) (src tgt : String)
    (l : List String) (j : Nat) (cj : List String)
    (hj : (chunkList B l)[j]? = some cj) :
    ((((chunkList B l).map (translateBatchOnGpu e src tgt)).flatten).drop
        (B * j)).take cj.length = translateBatchOnGpu e src tgt cj := by
  have hjl : B * j < l.length := by
    rw [chunkList_getElem? hB] at hj
    by_cases hlt : B * j < l.length
    · exact hlt
    · rw [if_neg hlt] at hj
      exact absurd hj (Option.noConfusion)
  set os := (chunkList B l).map (translateBatchOnGpu e src tgt) with hos
  have hget : os[j]? = some (translateBatchOnGpu e src tgt cj) := by
    rw [hos, List.getElem?_map, hj]
    rfl
  have hlen : (translateBatchOnGpu e src tgt cj).length = cj.length :=
    translateBatchOnGpu_length e src tgt cj
  have hpre : ((os.take j).flatten).length = B * j := by
    rw [hos, ← List.map_take,
      flatten_length_map _ (translateBatchOnGpu_length e src tgt),
      chunkList_take_flatten hB, List.length_take]
    omega
  have hgen := flatten_segment os j _ hget
  rw [hpre, hlen] at hgen
  exact hgen

/-! ## Claim C7 -/

/-- C7: for a filtered-texts list of length N, the scheduler produces exactly
`ceil(N / MODEL_BATCH_SIZE)` consecutive chunks of at most `MODEL_BATCH_SIZE`
items whose concatenation is the filtered list itself; the concatenation of
the per-chunk outputs in chunk order has length N, and for a per-item engine
it equals the in-order elementwise translation of the filtered texts. -/
theorem batching_correctness (e : Engine) (src tgt : String)
    (filtered : List String) :
    (chunkList MODEL_BATCH_SIZE filtered).length =
        (filtered.length + MODEL_BATCH_SIZE - 1) / MODEL_BATCH_SIZE
    ∧ (∀ c ∈ chunkList MODEL_BATCH_SIZE filtered, c.length ≤ MODEL_BATCH_SIZE)
    ∧ (chunkList MODEL_BATCH_SIZE filtered).flatten = filtered
    ∧ (((chunkList MODEL_BATCH_SIZE filtered).map
          (translateBatchOnGpu e src tgt)).flatten).length = filtered.length
    ∧ ∀ g : String → String, (∀ b, e src tgt b = EngineOutcome.ok (b.map g)) →
        ((chunkList MODEL_BATCH_SIZE filtered).map
          (translateBatchOnGpu e src tgt)).flatten = filtered.map g := by
  have hB : 0 < MODEL_BATCH_SIZE := by decide
  refine ⟨chunkList_length hB filtered, chunkList_chunk_le hB filtered,
    chunkList_flatten hB filtered, ?_, ?_⟩
  · rw [flatten_length_map _ (translateBatchOnGpu_length e src tgt)]
    exact congrArg List.length (chunkList_flatten hB filtered)
  · intro g hg
    have hball : translateBatchOnGpu e src tgt = fun c => c.map g := by
      funext c
      exact translateBatchOnGpu_ok_exact (hg c) (by rw [List.length_map])
    calc ((chunkList MODEL_BATCH_SIZE filtered).map
            (translateBatchOnGpu e src tgt)).flatten
        = ((chunkList MODEL_BATCH_SIZE filtered).map
            (fun c => c.map g)).flatten := by rw [hball]
      _ = ((chunkList MODEL_BATCH_SIZE filtered).flatten).map g :=
          (List.map_flatten _ _).symm
      _ = filtered.map g := by rw [chunkList_flatten hB]

theorem batching_correctness_witness :
    (chunkList MODEL_BATCH_SIZE ["a", "b", "c"]).length = 1 ∧
      ((chunkList MODEL_BATCH_SIZE ["a", "b", "c"]).map
        (translateBatchOnGpu engExcl "eng_Latn" "hin_Deva")).flatten =
        ["a!", "b!", "c!"] := by
  have h := batching_correctness engExcl "eng_Latn" "hin_Deva" ["a", "b", "c"]
  refine ⟨h.1.trans (by decide), ?_⟩
  have h5 := h.2.2.2.2 (fun s => s.push '!') (fun b => rfl)
  exact h5.trans (by decide)

/-! ## Claim C2 -/

/-- C2: per-chunk failure isolation, stated on the concatenated output of the
batch scheduler: if the engine fails (raises or times out) on the chunk at
index `j`, that chunk's segment of the concatenated result is that chunk's
own input texts, while the segment of any other chunk for which the engine
returns a (correct-length) result is exactly the engine's output for it,
unaffected by the failure. -/
theorem chunk_failure_isolation (e : Engine) (src tgt : String) (B : Nat)
    (hB : 0 < B) (filtered : List String) (j : Nat) (cj : List String)
    (hj : (chunkList B filtered)[j]? = some cj)
    (hfail : e src tgt cj = EngineOutcome.failure) :
    ((((chunkList B filtered).map (translateBatchOnGpu e src tgt)).flatten).drop
        (B * j)).take cj.length = cj
    ∧ ∀ (i : Nat) (ci rs : List String), i ≠ j →
        (chunkList B filtered)[i]? = some ci →
        e src tgt ci = EngineOutcome.ok rs → rs.length = ci.length →
        ((((chunkList B filtered).map
            (translateBatchOnGpu e src tgt)).flatten).drop (B * i)).take
          rs.length = rs := by
  constructor
  · have hseg := chunkList_segment hB e src tgt filtered j cj hj
    rw [translateBatchOnGpu_failure hfail] at hseg
    exact hseg
  · intro i ci rs hne hi hok hlen
    have hseg := chunkList_segment hB e src tgt filtered i ci hi
    rw [translateBatchOnGpu_ok_exact hok hlen] at hseg
    rw [hlen]
    exact hseg

theorem chunk_failure_isolation_witness :
    ((((chunkList 2 ["a", "b", "c", "d"]).map
        (translateBatchOnGpu engW2 "eng_Latn" "hin_Deva")).flatten).drop
      0).take 2 = ["a", "b"] ∧
    ((((chunkList 2 ["a", "b", "c", "d"]).map
        (translateBatchOnGpu engW2 "eng_Latn" "hin_Deva")).flatten).drop
      2).take 2 = ["c!", "d!"] := by
  have h := chunk_failure_isolation engW2 "eng_Latn" "hin_Deva" 2 (by decide)
    ["a", "b", "c", "d"] 0 ["a", "b"] (by decide) (by decide)
  constructor
  · simpa using h.1
  · simpa using h.2 1 ["c", "d"] ["c!", "d!"] (by decide) (by decide)
      (by decide) (by decide)

/-! ## Filtering and scatter lemmas -/

theorem filterTextsAux_shift (ia : Char → Bool) (k : Nat) (l : List String) :
    filterTextsAux ia (k + 1) l =
      ((filterTextsAux ia k l).1, (filterTextsAux ia k l).2.map Nat.succ) := by
  induction l generalizing k with
  | nil => rfl
  | cons t rest ih =>
      by_cases h : isTranslatable ia t
      · simp [filterTextsAux, if_pos h, ih (k + 1)]
      · simp only [filterTextsAux, if_neg h]
        exact ih (k + 1)

theorem filterTexts_cons (ia : Char → Bool) (t : String) (rest : List String) :
    filterTexts ia (t :: rest) =
      if isTranslatable ia t then
        (strip t :: (filterTexts ia rest).1,
          0 :: (filterTexts ia rest).2.map Nat.succ)
      else
        ((filterTexts ia rest).1, (filterTexts ia rest).2.map Nat.succ) := by
  have h1 : filterTextsAux ia 1 rest =
      ((filterTextsAux ia 0 rest).1,
        (filterTextsAux ia 0 rest).2.map Nat.succ) :=
    filterTextsAux_shift ia 0 rest
  unfold filterTexts
  simp only [filterTextsAux, h1]

theorem scatter_cons_map_succ (x : String) (base : List String)
    (idxs : List Nat) (vals : List String) :
    scatter (x :: base) (idxs.map Nat.succ) vals = x :: scatter base idxs vals := by
  induction idxs generalizing base vals with
  | nil => simp [scatter]
  | cons i is ih =>
      cases vals with
      | nil => simp [scatter]
      | cons v vs =>
          show scatter (x :: base.set i v) (is.map Nat.succ) vs =
            x :: scatter (base.set i v) is vs
          exact ih (base.set i v) vs

theorem scatter_filterTexts_passthrough (ia : Char → Bool) (texts : List String) :
    ∀ (vals : List String) (i : Nat) (hi : i < texts.length),
      isTranslatable ia (texts.get ⟨i, hi⟩) = false →
      (scatter texts (filterTexts ia texts).2 vals)[i]? =
        some (texts.get ⟨i, hi⟩) := by
  induction texts with
  | nil =>
      intro vals i hi
      simp at hi
  | cons t rest ih =>
      intro vals i hi hpt
      rw [filterTexts_cons]
      by_cases h : isTranslatable ia t
      · rw [if_pos h]
        cases i with
        | zero =>
            have hpt' : isTranslatable ia t = false := hpt
            rw [hpt'] at h
            exact absurd h (by simp)
        | succ i' =>
            cases vals with
            | nil =>
                show (t :: rest)[i' + 1]? = some ((t :: rest).get ⟨i' + 1, hi⟩)
                rw [List.getElem?_cons_succ,
                  List.getElem?_eq_getElem (show i' < rest.length by
                    simpa using hi)]
                rfl
            | cons v vs =>
                show (scatter (v :: rest)
                  ((filterTexts ia rest).2.map Nat.succ) vs)[i' + 1]? = _
                rw [scatter_cons_map_succ, List.getElem?_cons_succ]
                exact ih vs i' (by simpa using hi) hpt
      · rw [if_neg h]
        show (scatter (t :: rest)
          ((filterTexts ia rest).2.map Nat.succ) vals)[i]? = _
        rw [scatter_cons_map_succ]
        cases i with
        | zero =>
            rw [List.getElem?_cons_zero]
            rfl
        | succ i' =>
            rw [List.getElem?_cons_succ]
            exact ih vals i' (by simpa using hi) hpt

theorem scatter_filterTexts_map (ia : Char → Bool) (g : String → String)
    (texts : List String) :
    scatter texts (filterTexts ia texts).2 ((filterTexts ia texts).1.map g) =
      texts.map (fun t => if isTranslatable ia t then g (strip t) else t) := by
  induction texts with
  | nil => rfl
  | cons t rest ih =>
      rw [filterTexts_cons]
      by_cases h : isTranslatable ia t
      · rw [if_pos h]
        show scatter (g (strip t) :: rest)
            ((filterTexts ia rest).2.map Nat.succ)
            ((filterTexts ia rest).1.map g) = _
        rw [scatter_cons_map_succ, ih, List.map_cons, if_pos h]
      · rw [if_neg h]
        show scatter (t :: rest) ((filterTexts ia rest).2.map Nat.succ)
            ((filterTexts ia rest).1.map g) = _
        rw [scatter_cons_map_succ, ih, List.map_cons, if_neg h]

theorem filterTexts_fst (ia : Char → Bool) (texts : List String) :
    (filterTexts ia texts).1 =
      (texts.filter (fun t => isTranslatable ia t)).map strip := by
  induction texts with
  | nil => rfl
  | cons t rest ih =>
      rw [filterTexts_cons]
      by_cases h : isTranslatable ia t
      · rw [if_pos h]
        simp [List.filter_cons, h, ih]
      · rw [if_neg h]
        simp only [List.filter_cons]
        simp [h, ih]

theorem filterTexts_ne_nil (ia : Char → Bool) (texts : List String) (i : Nat)
    (hi : i < texts.length)
    (htr : isTranslatable ia (texts.get ⟨i, hi⟩) = true) :
    (filterTexts ia texts).1 ≠ [] := by
  induction texts generalizing i with
  | nil => simp at hi
  | cons t rest ih =>
      rw [filterTexts_cons]
      by_cases h : isTranslatable ia t
      · rw [if_pos h]
        simp
      · rw [if_neg h]
        cases i with
        | zero => exact absurd htr h
        | succ i' =>
            show (filterTexts ia rest).1 ≠ []
            exact ih i' (by simpa using hi) htr

/-! ## Pipeline-level lemmas -/

theorem model_length (ia : Char → Bool) (e : Engine) (mexn : Option String)
    (texts : List String) (tl : String) :
    (translate_texts_with_model ia e mexn texts tl).length = texts.length := by
  simp only [translate_texts_with_model]
  cases mexn with
  | some m => rfl
  | none =>
      cases resolveLang tl with
      | none => rfl
      | some t =>
          show (if (filterTexts ia texts).1 = [] then texts
            else scatter texts (filterTexts ia texts).2
              (((chunkList MODEL_BATCH_SIZE (filterTexts ia texts).1).map
                (translateBatchOnGpu e "eng_Latn" t)).flatten)).length =
            texts.length
          by_cases hfs : (filterTexts ia texts).1 = []
          · rw [if_pos hfs]
          · rw [if_neg hfs]
            exact scatter_length _ _ _

theorem model_passthrough (ia : Char → Bool) (e : Engine) (mexn : Option String)
    (texts : List String) (tl : String) (i : Nat) (hi : i < texts.length)
    (hpt : isTranslatable ia (texts.get ⟨i, hi⟩) = false) :
    (translate_texts_with_model ia e mexn texts tl)[i]? =
      some (texts.get ⟨i, hi⟩) := by
  have hbase : texts[i]? = some (texts.get ⟨i, hi⟩) := by
    rw [List.getElem?_eq_getElem hi]
    rfl
  simp only [translate_texts_with_model]
  cases mexn with
  | some m => exact hbase
  | none =>
      cases resolveLang tl with
      | none => exact hbase
      | some t =>
          show (if (filterTexts ia texts).1 = [] then texts
            else scatter texts (filterTexts ia texts).2
              (((chunkList MODEL_BATCH_SIZE (filterTexts ia texts).1).map
                (translateBatchOnGpu e "eng_Latn" t)).flatten))[i]? =
            some (texts.get ⟨i, hi⟩)
          by_cases hfs : (filterTexts ia texts).1 = []
          · rw [if_pos hfs]
            exact hbase
          · rw [if_neg hfs]
            exact scatter_filterTexts_passthrough ia texts _ i hi hpt

/-! ## Claim C5 -/

/-- C5: at every input index whose text is passthrough (not translatable),
the response contains the original, untrimmed input string verbatim at that
same index, for every engine behaviour and every unexpected-exception
location. -/
theorem passthrough_position_preserved (ia : Char → Bool) (e : Engine)
    (exn : ExnAt) (req : TranslationRequest) (i : Nat)
    (hi : i < req.texts.length)
    (hpt : isTranslatable ia (req.texts.get ⟨i, hi⟩) = false) :
    (translate_texts ia e exn req).translations[i]? =
      some (req.texts.get ⟨i, hi⟩) := by
  have hbase : req.texts[i]? = some (req.texts.get ⟨i, hi⟩) := by
    rw [List.getElem?_eq_getElem hi]
    rfl
  cases exn with
  | inEndpoint m => exact hbase
  | inModel m =>
      show (fixLength req.texts (translate_texts_with_model ia e (some m)
        req.texts req.target_language))[i]? = _
      rw [fixLength_of_length_eq (model_length ia e (some m) req.texts
        req.target_language)]
      exact model_passthrough ia e (some m) req.texts req.target_language i hi hpt
  | noExn =>
      show (fixLength req.texts (translate_texts_with_model ia e none
        req.texts req.target_language))[i]? = _
      rw [fixLength_of_length_eq (model_length ia e none req.texts
        req.target_language)]
      exact model_passthrough ia e none req.texts req.target_language i hi hpt

theorem passthrough_position_preserved_witness :
    (translate_texts Char.isAlpha engId ExnAt.noExn
      reqHello).translations[1]? = some "123" := by
  have h := passthrough_position_preserved Char.isAlpha engId ExnAt.noExn
    reqHello 1 (by decide) (by decide)
  exact h.trans (by decide)

/-! ## Claim C9 -/

/-- C9: a translatable input is submitted in stripped form, and with a
totally failing engine the identity fallback restores the stripped text, not
the original untrimmed string: the filtered list consists of the stripped
translatable texts, and the response at a translatable index is the stripped
text. -/
theorem translatable_trimmed_fallback (ia : Char → Bool)
    (req : TranslationRequest) (tl : String)
    (hres : resolveLang req.target_language = some tl) (i : Nat)
    (hi : i < req.texts.length)
    (htr : isTranslatable ia (req.texts.get ⟨i, hi⟩) = true) :
    (filterTexts ia req.texts).1 =
        (req.texts.filter (fun t => isTranslatable ia t)).map strip
    ∧ (translate_texts ia engFail ExnAt.noExn req).translations[i]? =
        some (strip (req.texts.get ⟨i, hi⟩)) := by
  refine ⟨filterTexts_fst ia req.texts, ?_⟩
  show (fixLength req.texts (translate_texts_with_model ia engFail none
    req.texts req.target_language))[i]? = _
  rw [fixLength_of_length_eq (model_length ia engFail none req.texts
    req.target_language)]
  simp only [translate_texts_with_model]
  rw [hres]
  show (if (filterTexts ia req.texts).1 = [] then req.texts
    else scatter req.texts (filterTexts ia req.texts).2
      (((chunkList MODEL_BATCH_SIZE (filterTexts ia req.texts).1).map
        (translateBatchOnGpu engFail "eng_Latn" tl)).flatten))[i]? =
    some (strip (req.texts.get ⟨i, hi⟩))
  rw [if_neg (filterTexts_ne_nil ia req.texts i hi htr)]
  have hid : translateBatchOnGpu engFail "eng_Latn" tl = fun c => c := by
    funext c
    exact translateBatchOnGpu_failure rfl
  rw [hid, List.map_id', chunkList_flatten (by decide : 0 < MODEL_BATCH_SIZE)]
  have hm := scatter_filterTexts_map ia (fun s => s) req.texts
  rw [List.map_id'] at hm
  rw [hm, List.getElem?_map, List.getElem?_eq_getElem hi]
  show some (if isTranslatable ia (req.texts.get ⟨i, hi⟩) then
    strip (req.texts.get ⟨i, hi⟩) else req.texts.get ⟨i, hi⟩) = _
  rw [if_pos htr]

theorem translatable_trimmed_fallback_witness :
    (translate_texts Char.isAlpha engFail ExnAt.noExn
      reqHello).translations[0]? = some "Hello" := by
  have h := (translatable_trimmed_fallback Char.isAlpha reqHello "hin_Deva"
    (by decide) 0 (by decide) (by decide)).2
  exact h.trans (by decide)

/-! ## Claim C8 -/

/-- C8 counterexample: an unexpected error raised inside
`translate_texts_with_model` — outside per-chunk handling, e.g. during
filtering — produces a response with NO error field (it is caught at api.py
lines 370-372, which return the original texts without an error), so the
claimed "error field iff unexpected error outside per-chunk handling" is
false. -/
theorem pipeline_error_field_cex :
    (translate_texts Char.isAlpha engId (ExnAt.inModel "boom")
        reqHello).error = none
    ∧ (translate_texts Char.isAlpha engId (ExnAt.inModel "boom")
        reqHello).translations = reqHello.texts := by
  exact ⟨rfl, by decide⟩

/-- C8 (amended): the error field is present iff the unexpected error occurs
in the endpoint body outside `translate_texts_with_model`; an unexpected
error inside `translate_texts_with_model` (e.g. in filtering) is swallowed
there, returning the original texts with no error field; when the error
field is present the translations equal the original texts; on a normal run
no error field is present. -/
theorem error_field_scope (ia : Char → Bool) (e : Engine)
    (req : TranslationRequest) :
    (∀ m, (translate_texts ia e (ExnAt.inEndpoint m) req).error = some m ∧
      (translate_texts ia e (ExnAt.inEndpoint m) req).translations = req.texts)
    ∧ (∀ m, (translate_texts ia e (ExnAt.inModel m) req).error = none ∧
      (translate_texts ia e (ExnAt.inModel m) req).translations = req.texts)
    ∧ (translate_texts ia e ExnAt.noExn req).error = none :=
  ⟨fun _ => ⟨rfl, rfl⟩, fun _ => ⟨rfl, fixLength_self req.texts⟩, rfl⟩

/-! ## Claim C10 -/

/-- C10: the pipeline ignores `source_language` entirely and consults the
engine only at the fixed source tag `"eng_Latn"`: two requests that differ
only in `source_language` — even run against engines that agree only at
source `"eng_Latn"` — produce identical responses. -/
theorem source_language_irrelevant (ia : Char → Bool) (e e' : Engine)
    (exn : ExnAt) (texts : List String) (s1 s2 tl : String)
    (rid : Option String)
    (he : ∀ (t : String) (b : List String),
      e "eng_Latn" t b = e' "eng_Latn" t b) :
    translate_texts ia e exn ⟨texts, s1, tl, rid⟩ =
      translate_texts ia e' exn ⟨texts, s2, tl, rid⟩ := by
  have hmod : ∀ mexn, translate_texts_with_model ia e mexn texts tl =
      translate_texts_with_model ia e' mexn texts tl := by
    intro mexn
    simp only [translate_texts_with_model]
    cases mexn with
    | some m => rfl
    | none =>
        cases resolveLang tl with
        | none => rfl
        | some t =>
            have htb : translateBatchOnGpu e "eng_Latn" t =
                translateBatchOnGpu e' "eng_Latn" t := by
              funext b
              unfold translateBatchOnGpu
              rw [he t b]
            show (if (filterTexts ia texts).1 = [] then texts
              else scatter texts (filterTexts ia texts).2
                (((chunkList MODEL_BATCH_SIZE (filterTexts ia texts).1).map
                  (translateBatchOnGpu e "eng_Latn" t)).flatten)) =
              (if (filterTexts ia texts).1 = [] then texts
              else scatter texts (filterTexts ia texts).2
                (((chunkList MODEL_BATCH_SIZE (filterTexts ia texts).1).map
                  (translateBatchOnGpu e' "eng_Latn" t)).flatten))
            rw [htb]
  cases exn with
  | noExn =>
      show (⟨fixLength texts (translate_texts_with_model ia e none texts tl),
          none⟩ : TranslationResponse) =
        ⟨fixLength texts (translate_texts_with_model ia e' none texts tl),
          none⟩
      rw [hmod none]
  | inModel m =>
      show (⟨fixLength texts
          (translate_texts_with_model ia e (some m) texts tl), none⟩ :
            TranslationResponse) =
        ⟨fixLength texts (translate_texts_with_model ia e' (some m) texts tl),
          none⟩
      rw [hmod (some m)]
  | inEndpoint m => rfl

theorem source_language_irrelevant_witness :
    translate_texts Char.isAlpha engId ExnAt.noExn
        ⟨["Hi"], "en", "hin_Deva", none⟩ =
      translate_texts Char.isAlpha engAlt ExnAt.noExn
        ⟨["Hi"], "fr", "hin_Deva", none⟩ := by
  apply source_language_irrelevant
  intro t b
  simp [engId, engAlt]

end IndicTransNSE
